import Mathlib

/-!
Verification development for the html5ever C API boundary
(src/capi/html5ever.h — borrowed-buffer variant, and
src/capi/include/html5ever.h — shared-buffer/atom variant).

The two headers declare the boundary contract: buffer views, a token-sink
callback table, and an opaque tokenizer handle with a feed/end/free
lifecycle.  The tokenization engine, the atom table and the bodies of the
declared functions are not part of the visible source; where a property
depends on them they are modelled from the specification's words, and each
such definition carries a doc comment starting `Modelled from the spec:`.
-/

namespace Html5ever

/-- A byte (`unsigned char` value) is modelled as a natural number. -/
abbrev Byte := Nat

/-- Translated from `struct h5e_buf` in src/capi/html5ever.h: a pointer plus
an explicit byte length.  The data pointer is modelled as the list of bytes
the view spans. -/
structure h5e_buf where
  data : List Byte
  len : Nat
deriving DecidableEq

/-- Modelled from the spec: the body of `h5e_buf_from_cstr` is not under
src/ (only its declaration at src/capi/html5ever.h line 20 is).  The spec
says constructing a borrowed view from a null-terminated string "computes
length via scan-to-terminator".  The C string is modelled as the list of
bytes in memory starting at the pointer; the view covers exactly the bytes
before the first NUL. -/
def h5e_buf_from_cstr (mem : List Byte) : h5e_buf :=
  ⟨mem.takeWhile (fun b => b != 0), (mem.takeWhile (fun b => b != 0)).length⟩

/-- Translated from `struct h5e_token_ops` in src/capi/html5ever.h: one
constructor per sink callback, carrying the callback's payloads.  Buffer
views are modelled as the byte lists they span; the `int` flags of the C
API as `Bool`; `size_t num_attrs` as `Nat`. -/
inductive SinkEvent
  | do_doctype (name pub sys : List Byte) (force_quirks : Bool)
  | do_start_tag (name : List Byte) (self_closing : Bool) (num_attrs : Nat)
  | do_tag_attr (name value : List Byte)
  | do_end_tag (name : List Byte)
  | do_comment (text : List Byte)
  | do_chars (text : List Byte)
  | do_null_char
  | do_eof
  | do_error (message : List Byte)
deriving DecidableEq

/-- Accumulator for a start tag being scanned: the tag name and the
attribute name/value pairs seen so far. -/
structure TagAcc where
  name : List Byte
  attrs : List (List Byte × List Byte)
deriving DecidableEq

/-- Modelled from the spec: the hidden tokenizer state machine behind the
opaque `struct h5e_tokenizer`.  The spec requires that "the handle carries
all carry-over state (e.g., a tag name accumulated across chunk
boundaries)", so every partially scanned construct lives in this state
type: pending character data, a partially read tag name, and the attribute
accumulator. -/
inductive TokState
  | data (pending : List Byte)
  | tagOpen
  | tagName (name : List Byte)
  | endTagOpen
  | endTagName (name : List Byte)
  | beforeAttrName (tag : TagAcc)
  | attrName (tag : TagAcc) (an : List Byte)
  | beforeAttrValue (tag : TagAcc) (an : List Byte)
  | attrValueDq (tag : TagAcc) (an av : List Byte)
  | attrValueUnq (tag : TagAcc) (an av : List Byte)
  | afterAttrValue (tag : TagAcc)
  | selfClosingStart (tag : TagAcc)
deriving DecidableEq

/-- ASCII whitespace recognised between tag parts. -/
def isWhite (b : Byte) : Bool :=
  b == 32 || b == 9 || b == 10 || b == 12 || b == 13

/-- ASCII letter, the first character of a tag name. -/
def isAlpha (b : Byte) : Bool :=
  (65 ≤ b && b ≤ 90) || (97 ≤ b && b ≤ 122)

/-- Emit pending character data as a single `do_chars` callback, or nothing
when no data is pending. -/
def flushChars (pending : List Byte) : List SinkEvent :=
  if pending.isEmpty then [] else [SinkEvent.do_chars pending]

/-- Append one completed attribute name/value pair to a tag accumulator. -/
def pushAttr (t : TagAcc) (an av : List Byte) : TagAcc :=
  ⟨t.name, t.attrs ++ [(an, av)]⟩

/-- Emit a completed start tag: a `do_start_tag` callback declaring the
number of attributes, followed immediately by exactly that many
`do_tag_attr` callbacks (the ordering rule of spec §4.2). -/
def emitTag (t : TagAcc) (selfClosing : Bool) : List SinkEvent :=
  SinkEvent.do_start_tag t.name selfClosing t.attrs.length ::
    t.attrs.map (fun a => SinkEvent.do_tag_attr a.1 a.2)

/-- Diagnostic text for a malformed tag-open sequence. -/
def errBadTagOpen : List Byte := [98, 97, 100, 32, 116, 97, 103]

/-- Diagnostic text for a malformed end-tag-open sequence. -/
def errBadEndTag : List Byte := [98, 97, 100, 32, 101, 110, 100]

/-- Diagnostic text for a stray solidus inside a tag. -/
def errBadSolidus : List Byte := [98, 97, 100, 32, 47]

/-- Diagnostic text for end of input inside an unfinished construct. -/
def errEofInTag : List Byte := [101, 111, 102, 32, 105, 110, 32, 116, 97, 103]

/-- Modelled from the spec: one transition of the hidden tokenization state
machine — consume one input byte, return the successor state and the sink
callbacks triggered by that byte, in order.  Character data is accumulated
and flushed at boundaries; a NUL byte in character data triggers the
dedicated `do_null_char` callback and is never placed in pending text;
tags are accumulated and emitted on `>` as `do_start_tag` plus its
attribute callbacks.  Recoverable malformed input yields `do_error` and
tokenization continues (spec §7a). -/
def step : TokState → Byte → TokState × List SinkEvent
  | TokState.data pending, b =>
      if b == 0 then (TokState.data [], flushChars pending ++ [SinkEvent.do_null_char])
      else if b == 60 then (TokState.tagOpen, flushChars pending)
      else (TokState.data (pending ++ [b]), [])
  | TokState.tagOpen, b =>
      if b == 47 then (TokState.endTagOpen, [])
      else if isAlpha b then (TokState.tagName [b], [])
      else (TokState.data [], [SinkEvent.do_error errBadTagOpen])
  | TokState.tagName n, b =>
      if isWhite b then (TokState.beforeAttrName ⟨n, []⟩, [])
      else if b == 47 then (TokState.selfClosingStart ⟨n, []⟩, [])
      else if b == 62 then (TokState.data [], emitTag ⟨n, []⟩ false)
      else (TokState.tagName (n ++ [b]), [])
  | TokState.endTagOpen, b =>
      if isAlpha b then (TokState.endTagName [b], [])
      else (TokState.data [], [SinkEvent.do_error errBadEndTag])
  | TokState.endTagName n, b =>
      if b == 62 then (TokState.data [], [SinkEvent.do_end_tag n])
      else if isWhite b then (TokState.endTagName n, [])
      else (TokState.endTagName (n ++ [b]), [])
  | TokState.beforeAttrName t, b =>
      if isWhite b then (TokState.beforeAttrName t, [])
      else if b == 47 then (TokState.selfClosingStart t, [])
      else if b == 62 then (TokState.data [], emitTag t false)
      else (TokState.attrName t [b], [])
  | TokState.attrName t an, b =>
      if b == 61 then (TokState.beforeAttrValue t an, [])
      else if isWhite b then (TokState.beforeAttrName (pushAttr t an []), [])
      else if b == 47 then (TokState.selfClosingStart (pushAttr t an []), [])
      else if b == 62 then (TokState.data [], emitTag (pushAttr t an []) false)
      else (TokState.attrName t (an ++ [b]), [])
  | TokState.beforeAttrValue t an, b =>
      if isWhite b then (TokState.beforeAttrValue t an, [])
      else if b == 34 then (TokState.attrValueDq t an [], [])
      else if b == 62 then (TokState.data [], emitTag (pushAttr t an []) false)
      else (TokState.attrValueUnq t an [b], [])
  | TokState.attrValueDq t an av, b =>
      if b == 34 then (TokState.afterAttrValue (pushAttr t an av), [])
      else (TokState.attrValueDq t an (av ++ [b]), [])
  | TokState.attrValueUnq t an av, b =>
      if isWhite b then (TokState.beforeAttrName (pushAttr t an av), [])
      else if b == 62 then (TokState.data [], emitTag (pushAttr t an av) false)
      else (TokState.attrValueUnq t an (av ++ [b]), [])
  | TokState.afterAttrValue t, b =>
      if isWhite b then (TokState.beforeAttrName t, [])
      else if b == 47 then (TokState.selfClosingStart t, [])
      else if b == 62 then (TokState.data [], emitTag t false)
      else (TokState.attrName t [b], [])
  | TokState.selfClosingStart t, b =>
      if b == 62 then (TokState.data [], emitTag t true)
      else (TokState.beforeAttrName t, [SinkEvent.do_error errBadSolidus])

/-- Modelled from the spec: `h5e_tokenizer_feed` (declared at
src/capi/html5ever.h line 45, body not under src/).  It "internally resumes
the tokenization state machine where the previous call left off",
synchronously driving the sink callbacks for each byte of the chunk in
input order.  Returns the successor state and the ordered callback trace
of this call. -/
def h5e_tokenizer_feed : TokState → List Byte → TokState × List SinkEvent
  | s, [] => (s, [])
  | s, b :: rest =>
      ((h5e_tokenizer_feed (step s b).1 rest).1,
        (step s b).2 ++ (h5e_tokenizer_feed (step s b).1 rest).2)

/-- Modelled from the spec: the trailing callbacks `h5e_tokenizer_end`
issues before end-of-input — it "flushes any buffered partial token":
pending character data is flushed; an unfinished tag construct yields a
recoverable-error callback. -/
def finishEvents : TokState → List SinkEvent
  | TokState.data pending => flushChars pending
  | _ => [SinkEvent.do_error errEofInTag]

/-- Modelled from the spec: `h5e_tokenizer_end` (declared at
src/capi/html5ever.h line 46, body not under src/) — it flushes buffered
partial-token state, "invokes any trailing Sink calls, then invokes
End-of-input exactly once". -/
def h5e_tokenizer_end (s : TokState) : List SinkEvent :=
  finishEvents s ++ [SinkEvent.do_eof]

/-- Modelled from the spec: the state of a freshly created handle — no
carry-over state, no pending character data. -/
def initState : TokState := TokState.data []

/-- Feed a sequence of chunks through successive `h5e_tokenizer_feed`
calls, concatenating the callback traces in order. -/
def feedChunks : TokState → List (List Byte) → TokState × List SinkEvent
  | s, [] => (s, [])
  | s, c :: cs =>
      ((feedChunks (h5e_tokenizer_feed s c).1 cs).1,
        (h5e_tokenizer_feed s c).2 ++ (feedChunks (h5e_tokenizer_feed s c).1 cs).2)

/-- The complete callback trace of one handle lifetime: create, feed the
given chunks in order, then end. -/
def runTokenizer (chunks : List (List Byte)) : List SinkEvent :=
  (feedChunks initState chunks).2 ++ h5e_tokenizer_end (feedChunks initState chunks).1

/-- Trace checker for the attribute-count ordering rule of spec §4.2: with
`n` attribute callbacks still owed, the trace must continue with exactly
`n` `do_tag_attr` events; a `do_start_tag` declaring `m` attributes makes
the next `m` events owed; `do_tag_attr` is illegal when none are owed. -/
def checkFrom : Nat → List SinkEvent → Bool
  | n, [] => n == 0
  | 0, SinkEvent.do_start_tag _ _ m :: rest => checkFrom m rest
  | 0, SinkEvent.do_tag_attr _ _ :: _ => false
  | 0, _ :: rest => checkFrom 0 rest
  | n + 1, SinkEvent.do_tag_attr _ _ :: rest => checkFrom n rest
  | _ + 1, _ :: _ => false

/-- An event is clean of NUL character data: a `do_chars` payload never
contains byte 0 (any other event is unconstrained). -/
def noNulChars : SinkEvent → Bool
  | SinkEvent.do_chars t => !(t.contains 0)
  | _ => true

/-- Whether the machine is in the character-data state. -/
def isDataState : TokState → Bool
  | TokState.data _ => true
  | _ => false

/-- State invariant: pending character data never contains a NUL byte. -/
def dataInv : TokState → Bool
  | TokState.data p => !(p.contains 0)
  | _ => true

/-- A lifecycle operation on a tokenizer handle, after `h5e_tokenizer_new`
has created it: feed a chunk, end the stream, or free the handle. -/
inductive LifeOp
  | feedOp (buf : List Byte)
  | endOp
  | freeOp
deriving DecidableEq

/-- Modelled from the spec: the lifecycle states of a handle.  `live`
covers `Created`/`Feeding` (a fresh handle and one that has received feed
calls behave identically for legality), then `ended`, then `freed`. -/
inductive LifeState
  | live
  | ended
  | freed
deriving DecidableEq

/-- Modelled from the spec: legality of one lifecycle operation in one
state — "States: Created → Feeding (zero or more times) → Ended → Freed.
No operation is legal on a Freed handle; feed is illegal after Ended; end
and free are each legal exactly once."  `none` marks a protocol-misuse
precondition violation (spec §7b): there is no in-band error return. -/
def lstep : LifeState → LifeOp → Option LifeState
  | LifeState.live, LifeOp.feedOp _ => some LifeState.live
  | LifeState.live, LifeOp.endOp => some LifeState.ended
  | LifeState.live, LifeOp.freeOp => none
  | LifeState.ended, LifeOp.feedOp _ => none
  | LifeState.ended, LifeOp.endOp => none
  | LifeState.ended, LifeOp.freeOp => some LifeState.freed
  | LifeState.freed, _ => none

/-- Whether a whole sequence of lifecycle operations is legal starting
from the given state: every operation must be legal in the state reached
so far. -/
def legalOps (s : LifeState) : List LifeOp → Bool
  | [] => true
  | op :: rest =>
      match lstep s op with
      | some next => legalOps next rest
      | none => false

/-- Modelled from the spec: the process-wide atom table behind
`scache_atom` (src/capi/include/html5ever.h), as the list of interned byte
spans in insertion order; an atom handle is the span's index.  Lookup
returns the index of the first entry equal to the span, if any. -/
def scacheLookup : List (List Byte) → List Byte → Option Nat
  | [], _ => none
  | x :: rest, s =>
      if x = s then some 0 else (scacheLookup rest s).map (fun i => i + 1)

/-- Modelled from the spec: interning — "looking up a byte span returns an
existing atom if present, else inserts and returns a fresh one".  Returns
the table after the operation and the atom handle for the span. -/
def scacheIntern (t : List (List Byte)) (s : List Byte) :
    List (List Byte) × Nat :=
  match scacheLookup t s with
  | some i => (t, i)
  | none => (t ++ [s], t.length)

/-- Run a sequence of interning operations, returning the final table. -/
def scacheInternList (t : List (List Byte)) : List (List Byte) → List (List Byte)
  | [] => t
  | s :: rest => scacheInternList (scacheIntern t s).1 rest

/-- C type expressions appearing in the two headers' declarations. -/
inductive CType
  | void
  | voidPtr
  | cInt
  | size_t
  | constCharPtr
  | h5e_buf_t
  | tendril_t
  | scache_atom_t
  | tokenSinkPtr
  | tokenizerPtr
deriving DecidableEq

/-- Identifiers declared by the headers (the `h5e_`/callback names). -/
inductive CName
  | n_doctype
  | n_start_tag
  | n_tag_attr
  | n_end_tag
  | n_comment
  | n_chars
  | n_null_char
  | n_eof
  | n_error
  | n_buf
  | n_buf_from_cstr
  | n_token_ops
  | n_token_sink
  | n_tokenizer
  | n_tokenizer_new
  | n_tokenizer_free
  | n_tokenizer_feed
  | n_tokenizer_end
deriving DecidableEq

/-- Include-guard macro names seen in the headers. -/
inductive GuardName
  | HTML5EVER_H_GUARD
deriving DecidableEq

/-- A header file as the C preprocessor sees it: its include-guard macro,
the identifiers it declares, the callback table of `h5e_token_ops` (each
callback's payload types after the leading `void *user`), and its function
declarations (name, return type, parameter types). -/
structure CHeader where
  guard : GuardName
  declNames : List CName
  ops : List (CName × List CType)
  fns : List (CName × CType × List CType)
deriving DecidableEq

/-- Translated from src/capi/html5ever.h (the borrowed-buffer variant):
guard `__HTML5EVER_H`; `struct h5e_buf`, `h5e_buf_from_cstr`, the callback
table with every textual payload a `struct h5e_buf`, and the lifecycle
functions with `h5e_tokenizer_feed` taking a `struct h5e_buf`. -/
def borrowedHeader : CHeader :=
  ⟨GuardName.HTML5EVER_H_GUARD,
   [CName.n_buf, CName.n_buf_from_cstr, CName.n_token_ops, CName.n_token_sink,
    CName.n_tokenizer, CName.n_tokenizer_new, CName.n_tokenizer_free,
    CName.n_tokenizer_feed, CName.n_tokenizer_end],
   [(CName.n_doctype, [CType.h5e_buf_t, CType.h5e_buf_t, CType.h5e_buf_t, CType.cInt]),
    (CName.n_start_tag, [CType.h5e_buf_t, CType.cInt, CType.size_t]),
    (CName.n_tag_attr, [CType.h5e_buf_t, CType.h5e_buf_t]),
    (CName.n_end_tag, [CType.h5e_buf_t]),
    (CName.n_comment, [CType.h5e_buf_t]),
    (CName.n_chars, [CType.h5e_buf_t]),
    (CName.n_null_char, []),
    (CName.n_eof, []),
    (CName.n_error, [CType.h5e_buf_t])],
   [(CName.n_buf_from_cstr, CType.h5e_buf_t, [CType.constCharPtr]),
    (CName.n_tokenizer_new, CType.tokenizerPtr, [CType.tokenSinkPtr]),
    (CName.n_tokenizer_free, CType.void, [CType.tokenizerPtr]),
    (CName.n_tokenizer_feed, CType.void, [CType.tokenizerPtr, CType.h5e_buf_t]),
    (CName.n_tokenizer_end, CType.void, [CType.tokenizerPtr])]⟩

/-- Translated from src/capi/include/html5ever.h (the shared-buffer/atom
variant): the same guard `__HTML5EVER_H`; no `h5e_buf`; tag and attribute
names are `scache_atom`, every other textual payload a `tendril`, and
`h5e_tokenizer_feed` takes a `tendril`. -/
def sharedHeader : CHeader :=
  ⟨GuardName.HTML5EVER_H_GUARD,
   [CName.n_token_ops, CName.n_token_sink, CName.n_tokenizer,
    CName.n_tokenizer_new, CName.n_tokenizer_free, CName.n_tokenizer_feed,
    CName.n_tokenizer_end],
   [(CName.n_doctype, [CType.tendril_t, CType.tendril_t, CType.tendril_t, CType.cInt]),
    (CName.n_start_tag, [CType.scache_atom_t, CType.cInt, CType.size_t]),
    (CName.n_tag_attr, [CType.scache_atom_t, CType.tendril_t]),
    (CName.n_end_tag, [CType.scache_atom_t]),
    (CName.n_comment, [CType.tendril_t]),
    (CName.n_chars, [CType.tendril_t]),
    (CName.n_null_char, []),
    (CName.n_eof, []),
    (CName.n_error, [CType.tendril_t])],
   [(CName.n_tokenizer_new, CType.tokenizerPtr, [CType.tokenSinkPtr]),
    (CName.n_tokenizer_free, CType.void, [CType.tokenizerPtr]),
    (CName.n_tokenizer_feed, CType.void, [CType.tokenizerPtr, CType.tendril_t]),
    (CName.n_tokenizer_end, CType.void, [CType.tokenizerPtr])]⟩

/-- Include-guard semantics for a translation unit that includes first one
header, then the other: the second header's declarations are visible only
if its guard macro differs from the first's (`#ifndef` skips the body
otherwise). -/
def includeTwo (h1 h2 : CHeader) : List CName :=
  if h2.guard = h1.guard then h1.declNames else h1.declNames ++ h2.declNames

/-! Helper lemmas about feeding. -/

theorem feed_nil (s : TokState) : h5e_tokenizer_feed s [] = (s, []) := rfl

theorem feed_append (a : List Byte) : ∀ (s : TokState) (b : List Byte),
    h5e_tokenizer_feed s (a ++ b)
      = ((h5e_tokenizer_feed (h5e_tokenizer_feed s a).1 b).1,
          (h5e_tokenizer_feed s a).2
            ++ (h5e_tokenizer_feed (h5e_tokenizer_feed s a).1 b).2) := by
  induction a with
  | nil => intro s b; simp [h5e_tokenizer_feed]
  | cons x xs ih => intro s b; simp [h5e_tokenizer_feed, ih]

theorem feedChunks_eq_feed_join (chunks : List (List Byte)) : ∀ s : TokState,
    feedChunks s chunks = h5e_tokenizer_feed s chunks.flatten := by
  induction chunks with
  | nil => intro s; simp [feedChunks, h5e_tokenizer_feed]
  | cons c cs ih => intro s; simp [feedChunks, ih, feed_append]

/-- C1: chunking is transparent — for every way of splitting the input
into chunks fed via successive `h5e_tokenizer_feed` calls followed by
`h5e_tokenizer_end`, the ordered callback trace equals the trace of
feeding the whole input in a single call: the handle state carries all
partial-token state across chunk boundaries. -/
theorem chunking_transparent (chunks : List (List Byte)) :
    runTokenizer chunks = runTokenizer [chunks.flatten] := by
  simp [runTokenizer, feedChunks_eq_feed_join, feedChunks]

/-- C7: `h5e_buf_from_cstr` on a null-terminated string returns a view
whose length is the number of bytes before the first NUL terminator
(index of the first 0) and whose data is exactly those bytes, none of
which is a NUL. -/
theorem buf_from_cstr_correct (mem : List Byte) (h : 0 ∈ mem) :
    (h5e_buf_from_cstr mem).len = mem.findIdx (fun b => b == 0)
    ∧ (h5e_buf_from_cstr mem).data = mem.take (mem.findIdx (fun b => b == 0))
    ∧ ((h5e_buf_from_cstr mem).data.all (fun b => b != 0)) = true := by
  clear h
  have hle : ∀ (p : Byte → Bool) (xs : List Byte), xs.findIdx p ≤ xs.length := by
    intro p xs
    induction xs with
    | nil => simp
    | cons x xs ih => by_cases hx : p x <;> simp [List.findIdx_cons, hx] <;> omega
  have key : ∀ xs : List Byte,
      (xs.takeWhile (fun b => b != 0)).length = xs.findIdx (fun b => b == 0)
      ∧ xs.takeWhile (fun b => b != 0)
          = xs.take (xs.findIdx (fun b => b == 0)) := by
    intro xs
    induction xs with
    | nil => exact ⟨rfl, rfl⟩
    | cons x xs ih =>
      by_cases hx : x = 0
      · subst hx
        refine ⟨?_, ?_⟩ <;> simp [List.findIdx_cons, List.takeWhile_cons]
      · have hx' : (x == 0) = false := by simpa using hx
        have hx'' : (x != 0) = true := by simp [bne, hx']
        refine ⟨?_, ?_⟩ <;>
          simp [List.findIdx_cons, List.takeWhile_cons, hx', hx'', ih.1, ih.2,
            hle (fun b => b == 0) xs]
  refine ⟨(key mem).1, ?_, ?_⟩
  · have h2 := (key mem).2
    simpa [h5e_buf_from_cstr, (key mem).1] using h2
  · have hall : ∀ xs : List Byte,
        ((xs.takeWhile (fun c => c != 0)).all (fun c => c != 0)) = true := by
      intro xs
      induction xs with
      | nil => rfl
      | cons x xs ih =>
        by_cases hx : x = 0
        · subst hx; simp [List.takeWhile_cons]
        · have hx' : (x != 0) = true := by simpa using hx
          simp [List.takeWhile_cons, hx', ih]
    exact hall mem

/-- Witness for C7 at the literal `"div"` (bytes `d`,`i`,`v`,NUL): the
view has length 3 and data `d`,`i`,`v`. -/
theorem buf_from_cstr_correct_witness :
    ((h5e_buf_from_cstr [100, 105, 118, 0]).len
        = [100, 105, 118, 0].findIdx (fun b => b == 0)
      ∧ (h5e_buf_from_cstr [100, 105, 118, 0]).data
          = [100, 105, 118, 0].take ([100, 105, 118, 0].findIdx (fun b => b == 0))
      ∧ (((h5e_buf_from_cstr [100, 105, 118, 0]).data.all (fun b => b != 0)) = true))
    ∧ (h5e_buf_from_cstr [100, 105, 118, 0]).len = 3
    ∧ (h5e_buf_from_cstr [100, 105, 118, 0]).data = [100, 105, 118] :=
  ⟨buf_from_cstr_correct [100, 105, 118, 0] (by decide), by decide, by decide⟩

/-- C8: an empty feed is a no-op — `h5e_tokenizer_feed` with a zero-length
buffer triggers no sink callbacks and leaves the whole tokenizer state
(including accumulated partial-token state) unchanged; consequently
inserting an empty chunk anywhere in a chunk sequence leaves the complete
lifetime trace unchanged. -/
theorem empty_feed_noop :
    (∀ s : TokState, h5e_tokenizer_feed s [] = (s, []))
    ∧ ∀ cs1 cs2 : List (List Byte),
        runTokenizer (cs1 ++ [[]] ++ cs2) = runTokenizer (cs1 ++ cs2) := by
  refine ⟨fun s => rfl, fun cs1 cs2 => ?_⟩
  simp [runTokenizer, feedChunks_eq_feed_join]

/-! Helper lemmas for the attribute-count ordering invariant (C2). -/

theorem checkFrom_nil (n : Nat) : checkFrom n [] = (n == 0) := by
  cases n <;> rfl

theorem checkFrom_append : ∀ (a : List SinkEvent) (n : Nat) (b : List SinkEvent),
    checkFrom n a = true → checkFrom 0 b = true → checkFrom n (a ++ b) = true := by
  intro a
  induction a with
  | nil =>
    intro n b h hb
    rw [checkFrom_nil] at h
    have : n = 0 := by simpa using h
    subst this
    simpa using hb
  | cons e rest ih =>
    intro n b h hb
    cases n with
    | zero =>
      cases e <;> simp only [List.cons_append] <;>
        first
          | exact ih _ _ h hb
          | (exact absurd h (by simp [checkFrom]))
    | succ m =>
      cases e <;> simp only [List.cons_append] <;>
        first
          | exact ih _ _ h hb
          | (exact absurd h (by simp [checkFrom]))

theorem checkFrom_attr_run :
    ∀ (attrs : List (List Byte × List Byte)) (rest : List SinkEvent),
      checkFrom attrs.length
          (attrs.map (fun a => SinkEvent.do_tag_attr a.1 a.2) ++ rest)
        = checkFrom 0 rest := by
  intro attrs
  induction attrs with
  | nil => intro rest; simp
  | cons a as ih => intro rest; simpa using ih rest

theorem checkFrom_emitTag (t : TagAcc) (sc : Bool) :
    checkFrom 0 (emitTag t sc) = true := by
  have h := checkFrom_attr_run t.attrs []
  simpa [emitTag, checkFrom] using h

theorem checkFrom_flushChars (pending : List Byte) :
    checkFrom 0 (flushChars pending) = true := by
  by_cases h : pending.isEmpty <;> simp [flushChars, h, checkFrom]

theorem checkFrom_attr_map (attrs : List (List Byte × List Byte)) :
    checkFrom attrs.length
        (attrs.map (fun a => SinkEvent.do_tag_attr a.1 a.2)) = true := by
  have h := checkFrom_attr_run attrs []
  simpa using h

theorem checkFrom_flush_append (p : List Byte) (rest : List SinkEvent) :
    checkFrom 0 (flushChars p ++ rest) = checkFrom 0 rest := by
  by_cases h : p.isEmpty <;> simp [flushChars, h, checkFrom]

theorem checkFrom_step (s : TokState) (b : Byte) :
    checkFrom 0 (step s b).2 = true := by
  cases s <;> simp only [step] <;> (repeat' split) <;>
    (first
      | rfl
      | simp [checkFrom, checkFrom_flushChars, checkFrom_flush_append,
          checkFrom_attr_map, emitTag])

theorem checkFrom_feed : ∀ (input : List Byte) (s : TokState),
    checkFrom 0 (h5e_tokenizer_feed s input).2 = true := by
  intro input
  induction input with
  | nil => intro s; rfl
  | cons b rest ih =>
    intro s
    exact checkFrom_append _ _ _ (checkFrom_step s b) (ih _)

theorem checkFrom_end (s : TokState) :
    checkFrom 0 (h5e_tokenizer_end s) = true := by
  cases s <;>
    first
      | rfl
      | simp [h5e_tokenizer_end, finishEvents, checkFrom_flush_append, checkFrom]

/-- C2: the attribute-count ordering rule — in every callback trace the
tokenizer can produce (any input, any chunking), every `do_start_tag`
declaring `N` attributes is followed by exactly `N` consecutive
`do_tag_attr` callbacks before any other sink operation, and `do_tag_attr`
never occurs outside such a run. -/
theorem start_tag_attr_ordering (chunks : List (List Byte)) :
    checkFrom 0 (runTokenizer chunks) = true := by
  rw [runTokenizer, feedChunks_eq_feed_join]
  exact checkFrom_append _ _ _ (checkFrom_feed _ _) (checkFrom_end _)

/-! Helper lemmas about `do_eof` (C3). -/

theorem eof_not_in_step (s : TokState) (b : Byte) :
    SinkEvent.do_eof ∉ (step s b).2 := by
  cases s <;> simp only [step, flushChars] <;> (repeat' split) <;>
    simp [emitTag]

theorem count_eof_feed : ∀ (input : List Byte) (s : TokState),
    ((h5e_tokenizer_feed s input).2.count SinkEvent.do_eof) = 0 := by
  intro input
  induction input with
  | nil => intro s; rfl
  | cons b rest ih =>
    intro s
    simp only [h5e_tokenizer_feed, List.count_append]
    rw [List.count_eq_zero.mpr (eof_not_in_step s b), ih]

theorem count_eof_finish (s : TokState) :
    ((finishEvents s).count SinkEvent.do_eof) = 0 := by
  cases s <;> simp only [finishEvents, flushChars] <;> (repeat' split) <;> rfl

/-- C3: end-of-input is unique and final — `h5e_tokenizer_feed` never
invokes `do_eof` (from any state, on any chunk), and in the complete
lifetime trace (feeds then `h5e_tokenizer_end`) the `do_eof` callback
occurs exactly once, as the very last callback: no sink callback of any
kind occurs after it. -/
theorem do_eof_once_final :
    (∀ (s : TokState) (input : List Byte),
        ((h5e_tokenizer_feed s input).2.count SinkEvent.do_eof) = 0)
    ∧ ∀ chunks : List (List Byte),
        (runTokenizer chunks).count SinkEvent.do_eof = 1
        ∧ ∃ pre : List SinkEvent,
            runTokenizer chunks = pre ++ [SinkEvent.do_eof]
            ∧ pre.count SinkEvent.do_eof = 0 := by
  refine ⟨fun s input => count_eof_feed input s, fun chunks => ?_⟩
  have hpre : (((feedChunks initState chunks).2
        ++ finishEvents (feedChunks initState chunks).1).count SinkEvent.do_eof) = 0 := by
    rw [List.count_append, feedChunks_eq_feed_join, count_eof_feed, count_eof_finish]
  refine ⟨?_, (feedChunks initState chunks).2 ++ finishEvents (feedChunks initState chunks).1,
    ?_, hpre⟩
  · simp [runTokenizer, h5e_tokenizer_end, List.count_append, count_eof_finish]
    rw [feedChunks_eq_feed_join, count_eof_feed]
  · simp [runTokenizer, h5e_tokenizer_end]

/-! Helper lemmas about NUL handling (C6). -/

theorem noNul_emitTag (t : TagAcc) (sc : Bool) :
    ((emitTag t sc).all noNulChars) = true := by
  rw [emitTag, List.all_cons]
  have h2 : ((t.attrs.map (fun a => SinkEvent.do_tag_attr a.1 a.2)).all noNulChars)
      = true := by
    rw [List.all_eq_true]
    intro e he
    rcases List.mem_map.mp he with ⟨a, _, rfl⟩
    rfl
  rw [h2]
  rfl

theorem count_null_attr_map (attrs : List (List Byte × List Byte)) :
    (List.count SinkEvent.do_null_char
      (attrs.map (fun a => SinkEvent.do_tag_attr a.1 a.2))) = 0 := by
  rw [List.count_eq_zero]
  intro hmem
  rcases List.mem_map.mp hmem with ⟨a, _, h⟩
  simp at h

theorem step_dataInv (s : TokState) (b : Byte) :
    dataInv s = true → dataInv (step s b).1 = true := by
  intro h
  cases s with
  | data pending =>
    have h' : (pending.contains 0) = false := by simpa [dataInv] using h
    have hp : 0 ∉ pending := by simpa using h'
    by_cases h0 : b = 0
    · subst h0; simp [step, dataInv]
    · by_cases h60 : b = 60
      · subst h60; simp [step, dataInv]
      · have hb : ¬(0 : Nat) = b := fun heq => h0 heq.symm
        simp [step, dataInv, h0, h60, hp, hb]
  | tagOpen => simp only [step]; (repeat' split) <;> rfl
  | tagName n => simp only [step]; (repeat' split) <;> rfl
  | endTagOpen => simp only [step]; (repeat' split) <;> rfl
  | endTagName n => simp only [step]; (repeat' split) <;> rfl
  | beforeAttrName t => simp only [step]; (repeat' split) <;> rfl
  | attrName t an => simp only [step]; (repeat' split) <;> rfl
  | beforeAttrValue t an => simp only [step]; (repeat' split) <;> rfl
  | attrValueDq t an av => simp only [step]; (repeat' split) <;> rfl
  | attrValueUnq t an av => simp only [step]; (repeat' split) <;> rfl
  | afterAttrValue t => simp only [step]; (repeat' split) <;> rfl
  | selfClosingStart t => simp only [step]; (repeat' split) <;> rfl

theorem step_noNul (s : TokState) (b : Byte) :
    dataInv s = true → (((step s b).2.all noNulChars)) = true := by
  intro h
  cases s with
  | data pending =>
    have h' : (pending.contains 0) = false := by simpa [dataInv] using h
    have hp : 0 ∉ pending := by simpa using h'
    by_cases h0 : b = 0
    · subst h0
      by_cases he : pending.isEmpty <;>
        simp [step, flushChars, he, List.all_append, noNulChars, hp]
    · by_cases h60 : b = 60
      · subst h60
        by_cases he : pending.isEmpty <;>
          simp [step, flushChars, he, noNulChars, hp]
      · simp [step, h0, h60]
  | tagOpen =>
    simp only [step]; (repeat' split) <;> (first | rfl | exact noNul_emitTag _ _)
  | tagName n =>
    simp only [step]; (repeat' split) <;> (first | rfl | exact noNul_emitTag _ _)
  | endTagOpen =>
    simp only [step]; (repeat' split) <;> (first | rfl | exact noNul_emitTag _ _)
  | endTagName n =>
    simp only [step]; (repeat' split) <;> (first | rfl | exact noNul_emitTag _ _)
  | beforeAttrName t =>
    simp only [step]; (repeat' split) <;> (first | rfl | exact noNul_emitTag _ _)
  | attrName t an =>
    simp only [step]; (repeat' split) <;> (first | rfl | exact noNul_emitTag _ _)
  | beforeAttrValue t an =>
    simp only [step]; (repeat' split) <;> (first | rfl | exact noNul_emitTag _ _)
  | attrValueDq t an av =>
    simp only [step]; (repeat' split) <;> (first | rfl | exact noNul_emitTag _ _)
  | attrValueUnq t an av =>
    simp only [step]; (repeat' split) <;> (first | rfl | exact noNul_emitTag _ _)
  | afterAttrValue t =>
    simp only [step]; (repeat' split) <;> (first | rfl | exact noNul_emitTag _ _)
  | selfClosingStart t =>
    simp only [step]; (repeat' split) <;> (first | rfl | exact noNul_emitTag _ _)

theorem feed_dataInv : ∀ (input : List Byte) (s : TokState),
    dataInv s = true → dataInv (h5e_tokenizer_feed s input).1 = true := by
  intro input
  induction input with
  | nil => intro s h; exact h
  | cons b rest ih =>
    intro s h
    exact ih _ (step_dataInv s b h)

theorem feed_noNul : ∀ (input : List Byte) (s : TokState),
    dataInv s = true → (((h5e_tokenizer_feed s input).2.all noNulChars)) = true := by
  intro input
  induction input with
  | nil => intro s _; rfl
  | cons b rest ih =>
    intro s h
    simp only [h5e_tokenizer_feed, List.all_append]
    rw [step_noNul s b h, ih _ (step_dataInv s b h)]
    rfl

theorem end_noNul (s : TokState) :
    dataInv s = true → ((h5e_tokenizer_end s).all noNulChars) = true := by
  cases s <;>
    simp_all [h5e_tokenizer_end, finishEvents, flushChars, dataInv, noNulChars] <;>
    (repeat' split) <;> simp_all [noNulChars]

/-- C6: NUL handling — a NUL byte never appears inside the text of any
`do_chars` callback in any trace the tokenizer can produce, and one
transition of the machine invokes the dedicated `do_null_char` callback
exactly once exactly when the byte consumed is NUL in the character-data
state (so each embedded NUL in character data yields exactly one
`do_null_char`). -/
theorem null_char_handling :
    (∀ chunks : List (List Byte), ((runTokenizer chunks).all noNulChars) = true)
    ∧ ∀ (s : TokState) (b : Byte),
        ((step s b).2.count SinkEvent.do_null_char)
          = if isDataState s && b == 0 then 1 else 0 := by
  constructor
  · intro chunks
    have hinit : dataInv initState = true := rfl
    simp only [runTokenizer, List.all_append, feedChunks_eq_feed_join]
    rw [feed_noNul _ _ hinit, end_noNul _ (feed_dataInv _ _ hinit)]
    rfl
  · intro s b
    cases s <;> simp only [step, flushChars, isDataState] <;> (repeat' split) <;>
      simp_all [emitTag, List.count_cons, List.count_append, count_null_attr_map]

/-! Helper lemmas for the handle lifecycle (C4). -/

theorem legalOps_freed (ops : List LifeOp) :
    legalOps LifeState.freed ops = true ↔ ops = [] := by
  cases ops with
  | nil => simp [legalOps]
  | cons op rest => cases op <;> simp [legalOps, lstep]

theorem legalOps_ended (ops : List LifeOp) :
    legalOps LifeState.ended ops = true ↔ (ops = [] ∨ ops = [LifeOp.freeOp]) := by
  cases ops with
  | nil => simp [legalOps]
  | cons op rest =>
    cases op with
    | feedOp b => simp [legalOps, lstep]
    | endOp => simp [legalOps, lstep]
    | freeOp => simp [legalOps, lstep, legalOps_freed rest]

/-- C4: the handle lifecycle state machine — starting from a freshly
created handle, a sequence of operations is legal exactly when it is some
number of `h5e_tokenizer_feed` calls, optionally followed by a single
`h5e_tokenizer_end`, optionally followed by a single `h5e_tokenizer_free`
as the last operation: feed is illegal after end, end and free are each
legal at most once, and no operation is legal on a freed handle.
Illegality is `none` in `lstep`: there is no in-band error return, the
legality is a precondition on the caller. -/
theorem handle_lifecycle (ops : List LifeOp) :
    legalOps LifeState.live ops = true
      ↔ ((∃ bufs : List (List Byte), ops = bufs.map LifeOp.feedOp)
        ∨ (∃ bufs : List (List Byte), ops = bufs.map LifeOp.feedOp ++ [LifeOp.endOp])
        ∨ (∃ bufs : List (List Byte),
            ops = bufs.map LifeOp.feedOp ++ [LifeOp.endOp, LifeOp.freeOp])) := by
  induction ops with
  | nil =>
    constructor
    · intro _; exact Or.inl ⟨[], rfl⟩
    · intro _; rfl
  | cons op rest ih =>
    cases op with
    | feedOp buf =>
      rw [show legalOps LifeState.live (LifeOp.feedOp buf :: rest)
            = legalOps LifeState.live rest from rfl, ih]
      constructor
      · rintro (⟨bufs, rfl⟩ | ⟨bufs, rfl⟩ | ⟨bufs, rfl⟩)
        · exact Or.inl ⟨buf :: bufs, rfl⟩
        · exact Or.inr (Or.inl ⟨buf :: bufs, rfl⟩)
        · exact Or.inr (Or.inr ⟨buf :: bufs, rfl⟩)
      · rintro (⟨bufs, h⟩ | ⟨bufs, h⟩ | ⟨bufs, h⟩)
        · cases bufs with
          | nil => exact absurd h (by simp)
          | cons c cs =>
            simp only [List.map_cons, List.cons.injEq] at h
            exact Or.inl ⟨cs, h.2⟩
        · cases bufs with
          | nil => simp at h
          | cons c cs =>
            simp only [List.map_cons, List.cons_append, List.cons.injEq] at h
            exact Or.inr (Or.inl ⟨cs, h.2⟩)
        · cases bufs with
          | nil => simp at h
          | cons c cs =>
            simp only [List.map_cons, List.cons_append, List.cons.injEq] at h
            exact Or.inr (Or.inr ⟨cs, h.2⟩)
    | endOp =>
      rw [show legalOps LifeState.live (LifeOp.endOp :: rest)
            = legalOps LifeState.ended rest from rfl, legalOps_ended rest]
      constructor
      · rintro (rfl | rfl)
        · exact Or.inr (Or.inl ⟨[], rfl⟩)
        · exact Or.inr (Or.inr ⟨[], rfl⟩)
      · rintro (⟨bufs, h⟩ | ⟨bufs, h⟩ | ⟨bufs, h⟩)
        · cases bufs with
          | nil => simp at h
          | cons c cs => simp at h
        · cases bufs with
          | nil =>
            simp only [List.map_nil, List.nil_append, List.cons.injEq] at h
            exact Or.inl h.2
          | cons c cs => simp at h
        · cases bufs with
          | nil =>
            simp only [List.map_nil, List.nil_append, List.cons.injEq] at h
            exact Or.inr h.2
          | cons c cs => simp at h
    | freeOp =>
      constructor
      · intro hl
        exact absurd hl (by simp [legalOps, lstep])
      · rintro (⟨bufs, h⟩ | ⟨bufs, h⟩ | ⟨bufs, h⟩) <;> cases bufs <;> simp at h

/-! Helper lemmas for atom interning (C5). -/

theorem scacheLookup_getElem : ∀ (t : List (List Byte)) (s : List Byte) (i : Nat),
    scacheLookup t s = some i → ∃ h : i < t.length, t.get ⟨i, h⟩ = s := by
  intro t
  induction t with
  | nil => intro s i h; simp [scacheLookup] at h
  | cons x rest ih =>
    intro s i h
    by_cases hx : x = s
    · simp only [scacheLookup, if_pos hx, Option.some.injEq] at h
      subst h
      exact ⟨by simp, hx⟩
    · simp only [scacheLookup, if_neg hx, Option.map_eq_some'] at h
      rcases h with ⟨j, hj, rfl⟩
      rcases ih s j hj with ⟨hlt, hget⟩
      exact ⟨by simpa using Nat.succ_lt_succ hlt, by simpa using hget⟩

theorem scacheLookup_append_some :
    ∀ (t : List (List Byte)) (u : List (List Byte)) (s : List Byte) (i : Nat),
      scacheLookup t s = some i → scacheLookup (t ++ u) s = some i := by
  intro t u s
  induction t with
  | nil => intro i h; simp [scacheLookup] at h
  | cons x rest ih =>
    intro i h
    by_cases hx : x = s
    · simp only [scacheLookup, if_pos hx, Option.some.injEq] at h
      simp [scacheLookup, if_pos hx, h]
    · simp only [scacheLookup, if_neg hx, Option.map_eq_some'] at h
      rcases h with ⟨j, hj, rfl⟩
      simp only [List.cons_append, scacheLookup, if_neg hx, Option.map_eq_some']
      exact ⟨j, ih j hj, rfl⟩

theorem scacheLookup_none_append (t : List (List Byte)) (s : List Byte)
    (h : scacheLookup t s = none) :
    scacheLookup (t ++ [s]) s = some t.length := by
  induction t with
  | nil => simp [scacheLookup]
  | cons x rest ih =>
    by_cases hx : x = s
    · simp [scacheLookup, if_pos hx] at h
    · simp only [scacheLookup, if_neg hx, Option.map_eq_none'] at h
      simp only [List.cons_append, scacheLookup, if_neg hx, Option.map_eq_some',
        List.length_cons]
      exact ⟨rest.length, ih h, rfl⟩

theorem scacheIntern_of_some (t : List (List Byte)) (s : List Byte) (i : Nat)
    (h : scacheLookup t s = some i) : scacheIntern t s = (t, i) := by
  simp [scacheIntern, h]

theorem scacheIntern_of_none (t : List (List Byte)) (s : List Byte)
    (h : scacheLookup t s = none) :
    scacheIntern t s = (t ++ [s], t.length) := by
  simp [scacheIntern, h]

theorem scacheIntern_lookup_self (t : List (List Byte)) (s : List Byte) :
    scacheLookup (scacheIntern t s).1 s = some (scacheIntern t s).2 := by
  rcases hl : scacheLookup t s with _ | i
  · simp [scacheIntern, hl, scacheLookup_none_append t s hl]
  · simp [scacheIntern, hl]

theorem scacheIntern_extends (t : List (List Byte)) (s : List Byte) :
    ∃ u, (scacheIntern t s).1 = t ++ u := by
  rcases hl : scacheLookup t s with _ | i
  · exact ⟨[s], by simp [scacheIntern, hl]⟩
  · exact ⟨[], by simp [scacheIntern, hl]⟩

theorem scacheInternList_extends :
    ∀ (l : List (List Byte)) (t : List (List Byte)),
      ∃ u, scacheInternList t l = t ++ u := by
  intro l
  induction l with
  | nil => intro t; exact ⟨[], by simp [scacheInternList]⟩
  | cons s rest ih =>
    intro t
    rcases scacheIntern_extends t s with ⟨u1, hu1⟩
    rcases ih (scacheIntern t s).1 with ⟨u2, hu2⟩
    refine ⟨u1 ++ u2, ?_⟩
    rw [scacheInternList, hu2, hu1, List.append_assoc]

theorem scacheLookup_inj (t : List (List Byte)) (s1 s2 : List Byte) (i : Nat)
    (h1 : scacheLookup t s1 = some i) (h2 : scacheLookup t s2 = some i) :
    s1 = s2 := by
  rcases scacheLookup_getElem t s1 i h1 with ⟨ha, hga⟩
  rcases scacheLookup_getElem t s2 i h2 with ⟨hb, hgb⟩
  rw [← hga]
  rw [← hgb]

/-- C5: atom interning is equality-preserving and injective — after any
prior interning operations `pre`, interning `s1` and then, after any
interleaved interning operations `mid`, interning `s2` yields equal atom
handles iff the two byte spans are equal; moreover a span not yet present
is inserted fresh (handle = previous table size) and a span already
present returns its existing handle with the table unchanged.  The empty
span is an ordinary span, so interning it is legal and reusable. -/
theorem scache_atom_interning (pre mid : List (List Byte)) (s1 s2 : List Byte) :
    ((scacheIntern (scacheInternList [] pre) s1).2
        = (scacheIntern (scacheInternList
            (scacheIntern (scacheInternList [] pre) s1).1 mid) s2).2
      ↔ s1 = s2)
    ∧ (scacheLookup (scacheInternList [] pre) s1 = none →
        (scacheIntern (scacheInternList [] pre) s1).1
            = scacheInternList [] pre ++ [s1]
        ∧ (scacheIntern (scacheInternList [] pre) s1).2
            = (scacheInternList [] pre).length)
    ∧ ∀ i : Nat, scacheLookup (scacheInternList [] pre) s1 = some i →
        (scacheIntern (scacheInternList [] pre) s1).1 = scacheInternList [] pre
        ∧ (scacheIntern (scacheInternList [] pre) s1).2 = i := by
  refine ⟨?_, ?_, ?_⟩
  · have hself := scacheIntern_lookup_self (scacheInternList [] pre) s1
    rcases scacheInternList_extends mid
        (scacheIntern (scacheInternList [] pre) s1).1 with ⟨u, hu⟩
    have hmid : scacheLookup
        (scacheInternList (scacheIntern (scacheInternList [] pre) s1).1 mid) s1
          = some (scacheIntern (scacheInternList [] pre) s1).2 := by
      rw [hu]
      exact scacheLookup_append_some _ u s1 _ hself
    constructor
    · intro heq
      have hself2 := scacheIntern_lookup_self
        (scacheInternList (scacheIntern (scacheInternList [] pre) s1).1 mid) s2
      rcases scacheIntern_extends
          (scacheInternList (scacheIntern (scacheInternList [] pre) s1).1 mid) s2
        with ⟨v, hv⟩
      have h1' : scacheLookup
          (scacheIntern
            (scacheInternList (scacheIntern (scacheInternList [] pre) s1).1 mid)
            s2).1 s1
            = some (scacheIntern (scacheInternList [] pre) s1).2 := by
        rw [hv]
        exact scacheLookup_append_some _ v s1 _ hmid
      rw [heq] at h1'
      exact scacheLookup_inj _ s1 s2 _ h1' hself2
    · intro heq
      subst heq
      rw [scacheIntern_of_some _ s1 _ hmid]
  · intro hnone
    rw [scacheIntern_of_none _ _ hnone]
    exact ⟨rfl, rfl⟩
  · intro i hsome
    rw [scacheIntern_of_some _ _ _ hsome]
    exact ⟨rfl, rfl⟩

/-- Witness for C5 at concrete inputs: with `"a"` interned first, then the
empty span, then `"b"` interleaved, re-interning the empty span returns
the same handle; and the first interning of the empty span (absent from
the table) appended it as a fresh entry. -/
theorem scache_atom_interning_witness :
    ((scacheIntern (scacheInternList [] [[97]]) []).2
        = (scacheIntern (scacheInternList
            (scacheIntern (scacheInternList [] [[97]]) []).1 [[98]]) []).2)
    ∧ (scacheIntern (scacheInternList [] [[97]]) []).1
        = scacheInternList [] [[97]] ++ [[]] := by
  have h := scache_atom_interning [[97]] [[98]] [] []
  exact ⟨h.1.mpr rfl, (h.2.1 (by decide)).1⟩

/-- C9: in the shared/atom ABI variant (src/capi/include/html5ever.h),
exactly three callback payloads are interned atoms — the start-tag name,
the attribute name in `do_tag_attr`, and the end-tag name — and every
other textual payload (doctype name/public/system, attribute value,
comment text, character data, error message) is a `tendril`, never an
atom. -/
theorem shared_abi_atom_payloads :
    ((sharedHeader.ops.map (fun f => List.count CType.scache_atom_t f.2)).sum = 3)
    ∧ sharedHeader.ops.get? 1
        = some (CName.n_start_tag, [CType.scache_atom_t, CType.cInt, CType.size_t])
    ∧ sharedHeader.ops.get? 2
        = some (CName.n_tag_attr, [CType.scache_atom_t, CType.tendril_t])
    ∧ sharedHeader.ops.get? 3 = some (CName.n_end_tag, [CType.scache_atom_t])
    ∧ ((sharedHeader.ops.filter (fun f => f.2.contains CType.scache_atom_t)).map
          Prod.fst
        = [CName.n_start_tag, CName.n_tag_attr, CName.n_end_tag])
    ∧ sharedHeader.ops.get? 0
        = some (CName.n_doctype,
            [CType.tendril_t, CType.tendril_t, CType.tendril_t, CType.cInt])
    ∧ sharedHeader.ops.get? 4 = some (CName.n_comment, [CType.tendril_t])
    ∧ sharedHeader.ops.get? 5 = some (CName.n_chars, [CType.tendril_t])
    ∧ sharedHeader.ops.get? 8 = some (CName.n_error, [CType.tendril_t]) := by
  decide

/-- C10: the two ABI surfaces are mutually exclusive — both headers carry
the identical include guard `__HTML5EVER_H`, every identifier declared by
the shared/atom header is also declared by the borrowed header, yet the
callback tables and the `h5e_tokenizer_feed` signatures are incompatible;
under `#ifndef` include-guard semantics a translation unit that includes
both headers, in either order, sees only the first's declarations. -/
theorem abi_surfaces_exclusive :
    borrowedHeader.guard = sharedHeader.guard
    ∧ (∀ x ∈ sharedHeader.declNames, x ∈ borrowedHeader.declNames)
    ∧ (borrowedHeader.ops.map Prod.fst = sharedHeader.ops.map Prod.fst)
    ∧ borrowedHeader.ops ≠ sharedHeader.ops
    ∧ (borrowedHeader.fns.lookup CName.n_tokenizer_feed
        ≠ sharedHeader.fns.lookup CName.n_tokenizer_feed)
    ∧ includeTwo borrowedHeader sharedHeader = borrowedHeader.declNames
    ∧ includeTwo sharedHeader borrowedHeader = sharedHeader.declNames := by
  decide

end Html5ever
